import Mathlib

/-!
Verification of the cover-geometry extractor of `album-wiz`
(`backend/app/process/cover_extractor.py`, with its prototype `backend/app/square.py`).

Shallow embedding conventions:
* a detected line `(x1, y1, x2, y2)` becomes a `Line` record over `ℚ`
  (the source lines carry integer pixel coordinates; all arithmetic the
  source performs on them — slopes, intercepts, centroids — is rational);
* Python floats produced by `np.sqrt` are modelled by real numbers
  (`Real.sqrt`); every comparison the source makes between such square
  roots is mirrored by an exact decidable rational test, and bridging
  lemmas prove the two agree;
* fallible functions return `Option`, with `None`/`(None, None)` results
  of the source mapped to `none`.
-/

namespace AlbumWiz

/-- A detected line segment `(x1, y1, x2, y2)`, as produced by the Hough
transform (`detect_lines`). -/
structure Line where
  x1 : ℚ
  y1 : ℚ
  x2 : ℚ
  y2 : ℚ
  deriving DecidableEq

/-- A 2-D point `(x, y)`. -/
abbrev Point : Type := ℚ × ℚ

/-- Squared length of a line segment: the quantity under the square root in
`calculate_line_length`. -/
def sqLength (l : Line) : ℚ :=
  (l.x2 - l.x1) ^ 2 + (l.y2 - l.y1) ^ 2

/-- Embedding of `calculate_line_length`: `np.sqrt((x2-x1)**2 + (y2-y1)**2)`. -/
noncomputable def calculate_line_length (l : Line) : ℝ :=
  Real.sqrt ((sqLength l : ℚ) : ℝ)

/-- Embedding of `get_direction_vector` (cover_extractor.py): the normalized direction
vector, with the zero-length guard returning `(0.0, 0.0)`. -/
noncomputable def get_direction_vector (l : Line) : ℝ × ℝ :=
  let dx : ℝ := ((l.x2 - l.x1 : ℚ) : ℝ)
  let dy : ℝ := ((l.y2 - l.y1 : ℚ) : ℝ)
  let norm : ℝ := Real.sqrt (dx ^ 2 + dy ^ 2)
  if norm = 0 then (0, 0) else (dx / norm, dy / norm)

/-- Embedding of `calculate_parallel_similarity`: `abs(np.dot(vec_1, vec_2))` of the two
direction vectors. -/
noncomputable def calculate_parallel_similarity (l1 l2 : Line) : ℝ :=
  let v1 := get_direction_vector l1
  let v2 := get_direction_vector l2
  |v1.1 * v2.1 + v1.2 * v2.2|

/-- The un-normalized dot product of the two lines' displacement vectors. -/
def rawDot (l1 l2 : Line) : ℚ :=
  (l1.x2 - l1.x1) * (l2.x2 - l2.x1) + (l1.y2 - l1.y1) * (l2.y2 - l2.y1)

/-- The square of `calculate_parallel_similarity`, as an exact rational:
`rawDot² / (sqLength l1 * sqLength l2)` with the degenerate case sent to `0`
(matching the `(0.0, 0.0)` guard of `get_direction_vector`). -/
def simSq (l1 l2 : Line) : ℚ :=
  if sqLength l1 * sqLength l2 = 0 then 0
  else rawDot l1 l2 ^ 2 / (sqLength l1 * sqLength l2)

/-- Decidable form of `calculate_parallel_similarity l1 l2 > c` for a
rational cutoff `c > 0` (see `calculate_parallel_similarity_gt_iff`). -/
def simGtB (l1 l2 : Line) (c : ℚ) : Bool :=
  decide (c ^ 2 < simSq l1 l2)

/-- Decidable form of `calculate_parallel_similarity l1 l2 < c` for a
rational cutoff `c > 0` (see `calculate_parallel_similarity_lt_iff`). -/
def simLtB (l1 l2 : Line) (c : ℚ) : Bool :=
  decide (simSq l1 l2 < c ^ 2)

/-- Embedding of `lines_proximity`: true when some endpoint of `l1` is within distance
`t` of some endpoint of `l2`.  The source compares
`np.linalg.norm(coord_1 - coord_2) < threshold`; here each comparison is the
equivalent exact test on squared distances (see `lines_proximity_iff`). -/
def lines_proximity (l1 l2 : Line) (t : ℚ) : Bool :=
  [(l1.x1, l1.y1), (l1.x2, l1.y2)].any fun c1 =>
    [(l2.x1, l2.y1), (l2.x2, l2.y2)].any fun c2 =>
      decide (0 < t ∧ (c1.1 - c2.1) ^ 2 + (c1.2 - c2.2) ^ 2 < t ^ 2)

/-- Embedding of `find_lines_intersection` (cover_extractor.py lines 246-283): slope and
intercept arithmetic with explicit branches for vertical lines; both
parallel branches (`(None, None)` in the source) become `none`. -/
def find_lines_intersection (l1 l2 : Line) : Option Point :=
  if l1.x1 = l1.x2 ∧ l2.x1 = l2.x2 then
    none
  else if l1.x1 = l1.x2 then
    let slope2 := (l2.y2 - l2.y1) / (l2.x2 - l2.x1)
    some (l1.x1, slope2 * l1.x1 + (l2.y1 - slope2 * l2.x1))
  else if l2.x1 = l2.x2 then
    let slope1 := (l1.y2 - l1.y1) / (l1.x2 - l1.x1)
    some (l2.x1, slope1 * l2.x1 + (l1.y1 - slope1 * l1.x1))
  else
    let slope1 := (l1.y2 - l1.y1) / (l1.x2 - l1.x1)
    let slope2 := (l2.y2 - l2.y1) / (l2.x2 - l2.x1)
    let intercept1 := l1.y1 - slope1 * l1.x1
    let intercept2 := l2.y1 - slope2 * l2.x1
    if slope1 = slope2 then none
    else
      let xi := (intercept2 - intercept1) / (slope1 - slope2)
      some (xi, xi * slope1 + intercept1)

/-- Two lines are mutually parallel in the sense of the source's branching:
both vertical (equal x-endpoints), or both non-vertical with equal slopes. -/
def parallelLines (l1 l2 : Line) : Prop :=
  (l1.x1 = l1.x2 ∧ l2.x1 = l2.x2) ∨
  (l1.x1 ≠ l1.x2 ∧ l2.x1 ≠ l2.x2 ∧
    (l1.y2 - l1.y1) / (l1.x2 - l1.x1) = (l2.y2 - l2.y1) / (l2.x2 - l2.x1))

instance (l1 l2 : Line) : Decidable (parallelLines l1 l2) := by
  unfold parallelLines; infer_instance

/-- Embedding of `detect_lines` after the Hough transform (cover_extractor.py lines
318-348): `cv2.HoughLinesP` returning no lines is `none` and maps to the
empty list; otherwise each returned entry is kept only if it flattens to
exactly 4 coordinates (malformed entries are logged and dropped). -/
def detect_lines (hough : Option (List (List ℚ))) : List Line :=
  match hough with
  | none => []
  | some ls =>
    ls.filterMap fun l =>
      match l with
      | [a, b, c, d] => some ⟨a, b, c, d⟩
      | _ => none

/-- The first line of the accumulated unique set that is both within the
proximity threshold of `curr` and nearly parallel to it (`> 0.92`); this is
the `pivot_line` at which the source's scan breaks. -/
def findDup (uniq : List Line) (curr : Line) (t : ℚ) : Option Line :=
  uniq.find? fun p => lines_proximity curr p t && simGtB curr p (92 / 100)

/-- Exact form of `calculate_line_length l1 > calculate_line_length l2`
(`Real.sqrt` is monotone, see `calculate_line_length_gt_iff`). -/
def lengthGtB (l1 l2 : Line) : Bool :=
  decide (sqLength l2 < sqLength l1)

/-- One iteration of the dedup loop of `filter_unique_lines`: an empty
accumulator takes the line; a line close to and nearly parallel with an
accumulated pivot replaces it when strictly longer
(`unique_lines.remove(pivot); append(curr)`) and is dropped otherwise. -/
def filterStep (t : ℚ) (uniq : List Line) (curr : Line) : List Line :=
  if uniq = [] then uniq ++ [curr]
  else
    (findDup uniq curr t).elim (uniq ++ [curr]) fun p =>
      if lengthGtB curr p then (uniq.erase p) ++ [curr] else uniq

/-- Embedding of `filter_unique_lines` (cover_extractor.py lines 351-391):
greedy single pass over the detected lines in order. -/
def filter_unique_lines (lines : List Line) (t : ℚ) : List Line :=
  lines.foldl (filterStep t) []

/-- A pair of lines believed parallel; the first component is the pair's
primary line. -/
abbrev LinePair : Type := Line × Line

/-- The source's symmetric pair-equality test:
`(best_1 == curr_1 and best_2 == curr_2) or (best_1 == curr_2 and best_2 == curr_1)`. -/
def pairEq (p q : LinePair) : Bool :=
  (p.1 = q.1 && p.2 = q.2) || (p.1 = q.2 && p.2 = q.1)

/-- The inner loop of `find_most_parallel_pairs` (lines 414-429): scan all
lines, skipping `line` itself (by value) and lines within the proximity
threshold, keeping the partner of greatest similarity.  `best_similarity`
is carried as the exact square of the source's float similarity (`simSq`),
starting from `0`.  The source's guards against malformed lines (length
other than 4) are vacuous for the 4-field `Line` record. -/
def bestPartnerFold (lines : List Line) (line : Line) (t : ℚ) :
    Option LinePair × ℚ :=
  lines.foldl
    (fun acc next =>
      if next = line then acc
      else if lines_proximity next line t then acc
      else if acc.2 < simSq line next then (some (line, next), simSq line next)
      else acc)
    (none, 0)

/-- The outer loop of `find_most_parallel_pairs` (lines 409-446): collect
each line's best pair together with its similarity, skipping pairs already
present up to swapping. -/
def collectPairs (lines : List Line) (t : ℚ) : List (LinePair × ℚ) :=
  lines.foldl
    (fun acc line =>
      (bestPartnerFold lines line t).1.elim acc fun bp =>
        if acc.any (fun e => pairEq bp e.1) then acc
        else acc ++ [(bp, (bestPartnerFold lines line t).2)])
    []

/-- Embedding of `np.argsort(similarities)[::-1]` (line 452): ascending sort reversed.
The source's quicksort leaves the relative order of exactly tied
similarities unspecified; the embedding fixes it with a stable ascending
insertion sort followed by the source's reversal. -/
def sortPairsDesc (entries : List (LinePair × ℚ)) : List (LinePair × ℚ) :=
  (List.insertionSort (fun a b => a.2 <= b.2) entries).reverse

/-- The selection stage of `find_most_parallel_pairs` (lines 454-464): take
the top pair, scan for the first later pair whose primary line has
similarity `< 0.9` with the top pair's primary line, and — if none exists —
fall back to the second pair of the sorted list. -/
def selectBestPairs (sorted : List LinePair) : List LinePair :=
  match sorted with
  | [] => []
  | a :: rest =>
    (rest.find? fun p => simLtB a.1 p.1 (9 / 10)).elim
      (rest.head?.elim [a] fun b => [a, b])
      (fun b => [a, b])

/-- Embedding of `find_most_parallel_pairs` (cover_extractor.py lines 394-468). -/
def find_most_parallel_pairs (lines : List Line) (t : ℚ) : List LinePair :=
  let entries := collectPairs lines t
  if entries = [] then []
  else selectBestPairs ((sortPairsDesc entries).map Prod.fst)

/-- Python `int()` truncation of a rational (toward zero). -/
def ratTrunc (q : ℚ) : ℤ :=
  if q < 0 then ⌈q⌉ else ⌊q⌋

/-- Embedding of `find_corners_from_lines` (cover_extractor.py lines 539-598) on the two
line pairs the callers pass: all four pairwise intersections in loop order,
each truncated to integers by `int(...)`; a parallel combination — whose
`(None, None)` intersection makes `int` raise the caught `TypeError` — is
skipped, and unless exactly four corners survive the result is `None`. -/
def find_corners_from_lines (pair1 pair2 : LinePair) : Option (List Point) :=
  let corners :=
    [pair1.1, pair1.2].flatMap fun l1 =>
      [pair2.1, pair2.2].filterMap fun l2 =>
        (find_lines_intersection l1 l2).map fun pt =>
          (((ratTrunc pt.1 : ℤ) : ℚ), ((ratTrunc pt.2 : ℤ) : ℚ))
  if corners.length = 4 then some corners else none

/-- The four corner slots being filled while reordering corners. -/
structure CornerSlots where
  tl : Option Point
  tr : Option Point
  br : Option Point
  bl : Option Point
  deriving DecidableEq

/-- One step of the reordering loop of `reformat_corners` (lines 682-691):
strict quadrant tests against the centroid; a point on either centroid axis
matches no branch and leaves the slots unchanged. -/
def assignCorner (xc yc : ℚ) (s : CornerSlots) (p : Point) : CornerSlots :=
  if p.1 < xc ∧ p.2 < yc then { s with tl := some p }
  else if xc < p.1 ∧ p.2 < yc then { s with tr := some p }
  else if xc < p.1 ∧ yc < p.2 then { s with br := some p }
  else if p.1 < xc ∧ yc < p.2 then { s with bl := some p }
  else s

/-- Embedding of `reformat_corners` (cover_extractor.py lines 661-706): take the first
four corners, classify each against the centroid, and fail unless all four
slots are filled. -/
def reformat_corners (corners : List Point) : Option (List Point) :=
  if corners.length < 4 then none
  else
    let cs := corners.take 4
    let xc := (cs.map Prod.fst).sum / 4
    let yc := (cs.map Prod.snd).sum / 4
    let s := cs.foldl (assignCorner xc yc) ⟨none, none, none, none⟩
    s.tl.elim none fun a => s.tr.elim none fun b =>
      s.br.elim none fun c => s.bl.elim none fun d => some [a, b, c, d]

/-- Squared distance between two points. -/
def sqDistPts (p q : Point) : ℚ :=
  (q.1 - p.1) ^ 2 + (q.2 - p.2) ^ 2

/-- The quadrilateral quality measure of `find_best_corners`
(lines 510-522): average top/bottom width over average left/right height,
as a distance of the ratio from `1`. -/
noncomputable def ratioDistance (quad : List Point) : ℝ :=
  match quad with
  | [c1, c2, c3, c4] =>
    let widthTop := Real.sqrt ((sqDistPts c1 c2 : ℚ) : ℝ)
    let widthBottom := Real.sqrt ((sqDistPts c3 c4 : ℚ) : ℝ)
    let heightLeft := Real.sqrt ((sqDistPts c1 c4 : ℚ) : ℝ)
    let heightRight := Real.sqrt ((sqDistPts c2 c3 : ℚ) : ℝ)
    |(widthTop + widthBottom) / 2 / ((heightLeft + heightRight) / 2) - 1|
  | _ => 0

/-- One candidate combination of the exhaustive search in
`find_best_corners` (lines 490-525): `none` when the combination is skipped
(same pair twice, primaries nearly parallel, failed intersections, failed
reordering), otherwise the reordered corners with their ratio distance. -/
noncomputable def evalCombo (first second : LinePair) : Option (List Point × ℝ) :=
  if pairEq first second then none
  else if simGtB first.1 second.1 (9 / 10) then none
  else
    (find_corners_from_lines first second).elim none fun cs =>
      (reformat_corners cs).elim none fun quad => some (quad, ratioDistance quad)

/-- All surviving candidates of the double loop
`for i, first_pair in enumerate(pairs): for second_pair in pairs[i+1:]`,
in evaluation order; `sets_of_corners` and `ratio_distances` are its two
projections (the source appends to them in lockstep). -/
noncomputable def bestCornerCandidates : List LinePair → List (List Point × ℝ)
  | [] => []
  | p :: rest => rest.filterMap (evalCombo p) ++ bestCornerCandidates rest

/-- Worker for `np.argmin`: index and value of the first minimum, given the
best seen so far. -/
noncomputable def argminAux : List ℝ → ℕ → ℝ → ℕ → ℕ × ℝ
  | [], bi, bv, _ => (bi, bv)
  | a :: rest, bi, bv, i =>
    if a < bv then argminAux rest i a (i + 1) else argminAux rest bi bv (i + 1)

/-- Embedding of `np.argmin`: index of the first minimal element (`0` on `[]`, which the
source never queries). -/
noncomputable def argminIdx : List ℝ → ℕ
  | [] => 0
  | a :: rest => (argminAux rest 0 a 1).1

/-- Embedding of `find_best_corners` (cover_extractor.py lines 471-536): evaluate every
combination of two pairs, and return `sets_of_corners[np.argmin(ratio_distances)]`,
or `None` when no combination produced a valid corner set. -/
noncomputable def find_best_corners (pairs : List LinePair) : Option (List Point) :=
  let cands := bestCornerCandidates pairs
  if cands = [] then none
  else (cands.get? (argminIdx (cands.map Prod.snd))).map Prod.fst

/-- Embedding of `detect_corners` (cover_extractor.py lines 601-658), parameterized by
the raw Hough output for the image and the image's height and width: line
detection, deduplication with threshold `0.4 * min(height, width)`, the
too-few-lines and no-pairs checks, best-corner search, and the final
bounds check that rejects any corner outside `[0, width] × [0, height]`. -/
noncomputable def detect_corners (hough : Option (List (List ℚ)))
    (height width : ℚ) : Option (List Point) :=
  let lines := detect_lines hough
  let t := if height < width then height * (2 / 5) else width * (2 / 5)
  let uniq := filter_unique_lines lines t
  if uniq.length < 4 then none
  else
    let bps := find_most_parallel_pairs uniq t
    if bps = [] then none
    else
      (find_best_corners bps).elim none fun quad =>
        if quad = [] then none
        else if quad.all fun c =>
            decide (0 ≤ c.1 ∧ c.1 ≤ width ∧ 0 ≤ c.2 ∧ c.2 ≤ height) then
          some quad
        else none

/-! Bridging lemmas: the exact rational tests used in the embedding agree
with the floating-point square-root comparisons of the source. -/

theorem sqLength_nonneg (l : Line) : 0 ≤ sqLength l := by
  unfold sqLength; positivity

theorem sqLength_eq_zero_iff (l : Line) :
    sqLength l = 0 ↔ l.x2 - l.x1 = 0 ∧ l.y2 - l.y1 = 0 := by
  unfold sqLength
  constructor
  · intro h
    constructor <;> nlinarith [sq_nonneg (l.x2 - l.x1), sq_nonneg (l.y2 - l.y1)]
  · rintro ⟨h1, h2⟩
    rw [h1, h2]; ring

theorem dir_sq_sum (l : Line) :
    ((l.x2 - l.x1 : ℚ) : ℝ) ^ 2 + ((l.y2 - l.y1 : ℚ) : ℝ) ^ 2
      = ((sqLength l : ℚ) : ℝ) := by
  unfold sqLength; push_cast; ring

theorem get_direction_vector_degenerate (l : Line) (h : sqLength l = 0) :
    get_direction_vector l = (0, 0) := by
  unfold get_direction_vector
  simp only [dir_sq_sum, h]
  norm_num

theorem get_direction_vector_eq (l : Line) (h : sqLength l ≠ 0) :
    get_direction_vector l =
      (((l.x2 - l.x1 : ℚ) : ℝ) / Real.sqrt ((sqLength l : ℚ) : ℝ),
       ((l.y2 - l.y1 : ℚ) : ℝ) / Real.sqrt ((sqLength l : ℚ) : ℝ)) := by
  have hpos : (0 : ℝ) < ((sqLength l : ℚ) : ℝ) := by
    have := sqLength_nonneg l
    have hne : (0 : ℚ) < sqLength l := lt_of_le_of_ne this (Ne.symm h)
    exact_mod_cast hne
  have hs : Real.sqrt ((sqLength l : ℚ) : ℝ) ≠ 0 :=
    ne_of_gt (Real.sqrt_pos.2 hpos)
  unfold get_direction_vector
  simp only [dir_sq_sum]
  rw [if_neg hs]

theorem calculate_parallel_similarity_eq_sqrt (l1 l2 : Line) :
    calculate_parallel_similarity l1 l2 = Real.sqrt ((simSq l1 l2 : ℚ) : ℝ) := by
  by_cases h1 : sqLength l1 = 0
  · have hd := get_direction_vector_degenerate l1 h1
    unfold calculate_parallel_similarity
    rw [hd]
    have : simSq l1 l2 = 0 := by unfold simSq; rw [h1]; simp
    rw [this]
    norm_num
  · by_cases h2 : sqLength l2 = 0
    · have hd := get_direction_vector_degenerate l2 h2
      unfold calculate_parallel_similarity
      rw [hd]
      have : simSq l1 l2 = 0 := by unfold simSq; rw [h2]; simp
      rw [this]
      norm_num
    · have e1 := get_direction_vector_eq l1 h1
      have e2 := get_direction_vector_eq l2 h2
      have p1 : (0 : ℝ) < ((sqLength l1 : ℚ) : ℝ) := by
        have := lt_of_le_of_ne (sqLength_nonneg l1) (Ne.symm h1); exact_mod_cast this
      have p2 : (0 : ℝ) < ((sqLength l2 : ℚ) : ℝ) := by
        have := lt_of_le_of_ne (sqLength_nonneg l2) (Ne.symm h2); exact_mod_cast this
      have hsq : simSq l1 l2 = rawDot l1 l2 ^ 2 / (sqLength l1 * sqLength l2) := by
        unfold simSq
        rw [if_neg (by positivity)]
      unfold calculate_parallel_similarity
      rw [hsq]
      simp only [e1, e2]
      have s1 := Real.sqrt_pos.2 p1
      have s2 := Real.sqrt_pos.2 p2
      have hdot : ((l1.x2 - l1.x1 : ℚ) : ℝ) / Real.sqrt ((sqLength l1 : ℚ) : ℝ) *
            (((l2.x2 - l2.x1 : ℚ) : ℝ) / Real.sqrt ((sqLength l2 : ℚ) : ℝ)) +
          ((l1.y2 - l1.y1 : ℚ) : ℝ) / Real.sqrt ((sqLength l1 : ℚ) : ℝ) *
            (((l2.y2 - l2.y1 : ℚ) : ℝ) / Real.sqrt ((sqLength l2 : ℚ) : ℝ))
          = ((rawDot l1 l2 : ℚ) : ℝ) /
              (Real.sqrt ((sqLength l1 : ℚ) : ℝ) * Real.sqrt ((sqLength l2 : ℚ) : ℝ)) := by
        field_simp
        unfold rawDot
        push_cast
        ring
      rw [hdot, abs_div, abs_mul, abs_of_pos s1, abs_of_pos s2]
      rw [show ((rawDot l1 l2 ^ 2 / (sqLength l1 * sqLength l2) : ℚ) : ℝ)
            = ((rawDot l1 l2 : ℚ) : ℝ) ^ 2 / (((sqLength l1 : ℚ) : ℝ) * ((sqLength l2 : ℚ) : ℝ))
          by push_cast; ring]
      rw [Real.sqrt_div (sq_nonneg _), Real.sqrt_sq_eq_abs,
        Real.sqrt_mul (le_of_lt p1)]

theorem simSq_nonneg (l1 l2 : Line) : 0 ≤ simSq l1 l2 := by
  unfold simSq
  split_ifs with h
  · exact le_rfl
  · exact div_nonneg (sq_nonneg _) (mul_nonneg (sqLength_nonneg _) (sqLength_nonneg _))

theorem calculate_parallel_similarity_lt_iff (l1 l2 : Line) (c : ℚ) (hc : 0 < c) :
    calculate_parallel_similarity l1 l2 < (c : ℝ) ↔ simLtB l1 l2 c = true := by
  rw [calculate_parallel_similarity_eq_sqrt,
    Real.sqrt_lt' (by exact_mod_cast hc)]
  unfold simLtB
  rw [decide_eq_true_iff]
  constructor
  · intro h
    exact_mod_cast h
  · intro h
    exact_mod_cast h

theorem calculate_parallel_similarity_gt_iff (l1 l2 : Line) (c : ℚ) (hc : 0 ≤ c) :
    (c : ℝ) < calculate_parallel_similarity l1 l2 ↔ simGtB l1 l2 c = true := by
  rw [calculate_parallel_similarity_eq_sqrt,
    Real.lt_sqrt (by exact_mod_cast hc)]
  unfold simGtB
  rw [decide_eq_true_iff]
  constructor
  · intro h
    exact_mod_cast h
  · intro h
    exact_mod_cast h

theorem calculate_line_length_gt_iff (l1 l2 : Line) :
    calculate_line_length l2 < calculate_line_length l1 ↔ lengthGtB l1 l2 = true := by
  unfold calculate_line_length lengthGtB
  rw [Real.sqrt_lt_sqrt_iff (by exact_mod_cast sqLength_nonneg l2), decide_eq_true_iff]
  constructor
  · intro h
    exact_mod_cast h
  · intro h
    exact_mod_cast h

theorem lines_proximity_iff (l1 l2 : Line) (t : ℚ) :
    lines_proximity l1 l2 t = true ↔
      ∃ c1 ∈ [(l1.x1, l1.y1), (l1.x2, l1.y2)],
        ∃ c2 ∈ [(l2.x1, l2.y1), (l2.x2, l2.y2)],
          Real.sqrt ((sqDistPts c2 c1 : ℚ) : ℝ) < (t : ℝ) := by
  unfold lines_proximity
  rw [List.any_eq_true]
  constructor
  · rintro ⟨c1, hc1, h⟩
    rw [List.any_eq_true] at h
    obtain ⟨c2, hc2, h⟩ := h
    rw [decide_eq_true_iff] at h
    obtain ⟨ht, hlt⟩ := h
    refine ⟨c1, hc1, c2, hc2, ?_⟩
    rw [Real.sqrt_lt' (by exact_mod_cast ht)]
    unfold sqDistPts
    push_cast
    rw [show ((t : ℝ) ^ 2) = ((t ^ 2 : ℚ) : ℝ) by push_cast; ring]
    exact_mod_cast hlt
  · rintro ⟨c1, hc1, c2, hc2, h⟩
    have ht : (0 : ℝ) < (t : ℝ) :=
      lt_of_le_of_lt (Real.sqrt_nonneg _) h
    rw [Real.sqrt_lt' ht] at h
    refine ⟨c1, hc1, ?_⟩
    rw [List.any_eq_true]
    refine ⟨c2, hc2, ?_⟩
    rw [decide_eq_true_iff]
    refine ⟨by exact_mod_cast ht, ?_⟩
    unfold sqDistPts at h
    have h2 : (((c1.1 - c2.1) ^ 2 + (c1.2 - c2.2) ^ 2 : ℚ) : ℝ) < ((t ^ 2 : ℚ) : ℝ) := by
      push_cast
      push_cast at h
      nlinarith [h]
    exact_mod_cast h2

/-! Claim theorems. -/

/-- C9: the intersection of line (0,0)-(100,100) with line (0,100)-(100,0)
is exactly the point (50, 50) under the embedding's exact rational
slope/intercept arithmetic. -/
theorem intersection_diagonals_center :
    find_lines_intersection ⟨0, 0, 100, 100⟩ ⟨0, 100, 100, 0⟩ = some (50, 50) := by
  norm_num [find_lines_intersection]

/-- C3: the line-intersection operation is total, returns `none` exactly for
mutually parallel inputs (both vertical, or equal slopes), handles a vertical
line by an explicit branch that outputs the vertical line's x-coordinate
rather than dividing by its zero run, and in particular maps the parallel
horizontal lines (0,0)-(100,0) and (0,10)-(100,10) to `none`. -/
theorem find_lines_intersection_parallel_iff :
    (∀ l1 l2 : Line, find_lines_intersection l1 l2 = none ↔ parallelLines l1 l2) ∧
    (∀ l1 l2 : Line, l1.x1 = l1.x2 → l2.x1 ≠ l2.x2 →
      ∃ y, find_lines_intersection l1 l2 = some (l1.x1, y)) ∧
    find_lines_intersection ⟨0, 0, 100, 0⟩ ⟨0, 10, 100, 10⟩ = none := by
  refine ⟨?_, ?_, ?_⟩
  · intro l1 l2
    unfold find_lines_intersection parallelLines
    split_ifs <;> simp_all
  · intro l1 l2 h1 h2
    unfold find_lines_intersection
    rw [if_neg (by tauto), if_pos h1]
    exact ⟨_, rfl⟩
  · norm_num [find_lines_intersection]

/-- Witness for C3: two distinct vertical lines are parallel, so the
intersection is `none`; a vertical line meeting a diagonal produces a point
on the vertical line's x-coordinate. -/
theorem find_lines_intersection_parallel_iff_witness :
    find_lines_intersection ⟨0, 0, 0, 100⟩ ⟨10, 0, 10, 100⟩ = none ∧
    ∃ y, find_lines_intersection ⟨5, 0, 5, 100⟩ ⟨0, 0, 100, 100⟩ = some (5, y) :=
  ⟨(find_lines_intersection_parallel_iff.1 _ _).2 (Or.inl ⟨rfl, rfl⟩),
   find_lines_intersection_parallel_iff.2.1 _ _ rfl (by norm_num)⟩

/-- C7: the direction-vector computation guards the division by the endpoint
distance: a line with coincident endpoints yields the flagged degenerate
vector (0, 0) rather than a unit direction vector, while every other line
yields a genuine unit vector. -/
theorem get_direction_vector_zero_guard :
    (∀ l : Line, l.x1 = l.x2 ∧ l.y1 = l.y2 → get_direction_vector l = (0, 0)) ∧
    (∀ l : Line, ¬(l.x1 = l.x2 ∧ l.y1 = l.y2) →
      (get_direction_vector l).1 ^ 2 + (get_direction_vector l).2 ^ 2 = 1) := by
  constructor
  · rintro l ⟨hx, hy⟩
    apply get_direction_vector_degenerate
    rw [sqLength_eq_zero_iff]
    constructor
    · rw [hx]; ring
    · rw [hy]; ring
  · intro l h
    have hs : sqLength l ≠ 0 := by
      intro hz
      rw [sqLength_eq_zero_iff] at hz
      exact h ⟨by linarith [hz.1], by linarith [hz.2]⟩
    have hpos : (0 : ℝ) < ((sqLength l : ℚ) : ℝ) := by
      have := lt_of_le_of_ne (sqLength_nonneg l) (Ne.symm hs)
      exact_mod_cast this
    rw [get_direction_vector_eq l hs]
    have hsq : Real.sqrt ((sqLength l : ℚ) : ℝ) ^ 2 = ((sqLength l : ℚ) : ℝ) :=
      Real.sq_sqrt (le_of_lt hpos)
    have hne : Real.sqrt ((sqLength l : ℚ) : ℝ) ≠ 0 :=
      ne_of_gt (Real.sqrt_pos.2 hpos)
    have hcast : ((l.x2 - l.x1 : ℚ) : ℝ) ^ 2 + ((l.y2 - l.y1 : ℚ) : ℝ) ^ 2
        = ((sqLength l : ℚ) : ℝ) := dir_sq_sum l
    rw [div_pow, div_pow, div_add_div_same, hcast, hsq, div_self (ne_of_gt hpos)]

/-- Witness for C7: the degenerate line at (2,3) is flagged with (0,0), and
the 3-4-5 line has a unit direction vector. -/
theorem get_direction_vector_zero_guard_witness :
    get_direction_vector ⟨2, 3, 2, 3⟩ = (0, 0) ∧
    (get_direction_vector ⟨0, 0, 3, 4⟩).1 ^ 2 + (get_direction_vector ⟨0, 0, 3, 4⟩).2 ^ 2 = 1 :=
  ⟨get_direction_vector_zero_guard.1 _ ⟨rfl, rfl⟩,
   get_direction_vector_zero_guard.2 _ (by norm_num)⟩

/-- C6: when the Hough transform finds zero lines (`cv2.HoughLinesP` returns
`None`) the line detector returns the empty list, and the empty result flows
through deduplication into the ordinary too-few-lines failure of
`detect_corners` (a `none` return, not an error). -/
theorem detect_lines_none_empty :
    detect_lines none = [] ∧
    ∀ height width : ℚ, detect_corners none height width = none := by
  constructor
  · rfl
  · intro height width
    simp [detect_corners, detect_lines, filter_unique_lines]

/-- Witness for C6 at a concrete image size. -/
theorem detect_lines_none_empty_witness :
    detect_corners none 480 640 = none :=
  detect_lines_none_empty.2 480 640

/-- Folding the dedup step over a list none of whose lines duplicates an
accumulated line or an earlier line simply appends the list. -/
theorem foldl_filterStep_clean (t : ℚ) :
    ∀ lines uniq : List Line,
      (∀ c ∈ lines, ∀ p ∈ uniq, (lines_proximity c p t && simGtB c p (92 / 100)) = false) →
      lines.Pairwise (fun a b => (lines_proximity b a t && simGtB b a (92 / 100)) = false) →
      lines.foldl (filterStep t) uniq = uniq ++ lines := by
  intro lines
  induction lines with
  | nil => intro uniq _ _; simp
  | cons c rest ih =>
    intro uniq hcl hpw
    rw [List.foldl_cons]
    have hstep : filterStep t uniq c = uniq ++ [c] := by
      have hfd : findDup uniq c t = none := by
        unfold findDup
        rw [List.find?_eq_none]
        intro p hp
        simp [hcl c (by simp) p hp]
      unfold filterStep
      rw [hfd]
      split_ifs with h
      · rfl
      · rfl
    rw [hstep,
      ih (uniq ++ [c])
        (by
          intro x hx p hp
          rcases List.mem_append.1 hp with hp | hp
          · exact hcl x (List.mem_cons_of_mem _ hx) p hp
          · have hpc : p = c := by simpa using hp
            subst hpc
            exact (List.pairwise_cons.1 hpw).1 x hx)
        hpw.of_cons]
    simp

/-- Counterexample to C4: a second pass of the deduplicator over its own
output removes a further line.  With threshold 10, the line (5,0)-(105,0)
first replaces (0,0)-(50,0); in the output it is also close to and parallel
with (100,0)-(160,0), which the single pass never re-checked, so a second
pass merges them. -/
theorem filter_unique_lines_not_idempotent :
    filter_unique_lines
        (filter_unique_lines [⟨0, 0, 50, 0⟩, ⟨100, 0, 160, 0⟩, ⟨5, 0, 105, 0⟩] 10) 10 ≠
      filter_unique_lines [⟨0, 0, 50, 0⟩, ⟨100, 0, 160, 0⟩, ⟨5, 0, 105, 0⟩] 10 := by
  have h1 : filter_unique_lines [⟨0, 0, 50, 0⟩, (⟨100, 0, 160, 0⟩ : Line), ⟨5, 0, 105, 0⟩] 10
      = [⟨100, 0, 160, 0⟩, ⟨5, 0, 105, 0⟩] := by
    norm_num [filter_unique_lines, filterStep, findDup, lengthGtB, lines_proximity, simGtB,
      simSq, sqLength, rawDot, List.find?, List.foldl, List.erase, List.cons_ne_nil,
      beq_iff_eq, Line.mk.injEq]
  have h2 : filter_unique_lines [(⟨100, 0, 160, 0⟩ : Line), ⟨5, 0, 105, 0⟩] 10
      = [⟨5, 0, 105, 0⟩] := by
    norm_num [filter_unique_lines, filterStep, findDup, lengthGtB, lines_proximity, simGtB,
      simSq, sqLength, rawDot, List.find?, List.foldl, List.erase, List.cons_ne_nil,
      beq_iff_eq, Line.mk.injEq]
  rw [h1, h2]
  simp

/-- C4 (amended): the deduplicator leaves a list unchanged whenever no line
is both within the proximity threshold of and nearly parallel to an earlier
line of the list; its own output need not satisfy this (a replacement line
is never re-checked against the remaining unique lines), so idempotence
fails in general. -/
theorem filter_unique_lines_fixed_point (lines : List Line) (t : ℚ)
    (h : lines.Pairwise fun a b => (lines_proximity b a t && simGtB b a (92 / 100)) = false) :
    filter_unique_lines lines t = lines := by
  unfold filter_unique_lines
  rw [foldl_filterStep_clean t lines [] (by intro c _ p hp; simp at hp) h]
  simp

/-- Witness for C4 (amended): two far-apart horizontal lines are untouched
by the deduplicator. -/
theorem filter_unique_lines_fixed_point_witness :
    filter_unique_lines [⟨0, 0, 50, 0⟩, ⟨100, 0, 160, 0⟩] 10
      = [⟨0, 0, 50, 0⟩, ⟨100, 0, 160, 0⟩] :=
  filter_unique_lines_fixed_point _ _
    (by norm_num [List.pairwise_cons, lines_proximity, simGtB, simSq, sqLength, rawDot])

set_option maxHeartbeats 2000000 in
/-- Counterexample to C2: on three mutually parallel far-apart horizontal
lines, the simple pair-selection strategy still returns two pairs — via its
fallback `best_pairs.append(sorted_pairs[1])` — whose primary lines have
parallel-similarity 1, not strictly below 0.9. -/
theorem find_most_parallel_pairs_fallback_near_parallel :
    find_most_parallel_pairs
        [⟨0, 0, 100, 0⟩, ⟨0, 100, 100, 100⟩, ⟨0, 200, 100, 200⟩] 10
      = [(⟨0, 200, 100, 200⟩, ⟨0, 0, 100, 0⟩), (⟨0, 0, 100, 0⟩, ⟨0, 100, 100, 100⟩)] ∧
    ¬ calculate_parallel_similarity ⟨0, 200, 100, 200⟩ ⟨0, 0, 100, 0⟩
        < ((9 / 10 : ℚ) : ℝ) := by
  constructor
  · norm_num [find_most_parallel_pairs, collectPairs, bestPartnerFold, sortPairsDesc,
      selectBestPairs, pairEq, lines_proximity, simLtB, simSq, sqLength, rawDot,
      List.insertionSort, List.orderedInsert, List.find?, List.foldl, List.any,
      Line.mk.injEq, Prod.mk.injEq, List.cons_ne_nil]
  · rw [calculate_parallel_similarity_lt_iff _ _ _ (by norm_num)]
    norm_num [simLtB, simSq, sqLength, rawDot]

/-- C2 (amended): whenever the simple strategy returns two pairs, the first
is the top of the sorted list and the second belongs to its tail, and either
the second pair's primary line has parallel-similarity strictly below 0.9
with the top pair's primary line, or no pair of the tail satisfies that
bound and the strategy has fallen back to the second pair in sorted order
(which may share the top pair's axis). -/
theorem selectBestPairs_spec (sorted : List LinePair) (a b : LinePair)
    (h : selectBestPairs sorted = [a, b]) :
    ∃ tail, sorted = a :: tail ∧ b ∈ tail ∧
      (calculate_parallel_similarity a.1 b.1 < ((9 / 10 : ℚ) : ℝ) ∨
        ((∀ p ∈ tail, ¬ calculate_parallel_similarity a.1 p.1 < ((9 / 10 : ℚ) : ℝ)) ∧
          tail.head? = some b)) := by
  cases sorted with
  | nil => simp [selectBestPairs] at h
  | cons a0 rest =>
    simp only [selectBestPairs] at h
    cases hfind : rest.find? (fun p => simLtB a0.1 p.1 (9 / 10)) with
    | some b0 =>
      rw [hfind] at h
      obtain ⟨ha, hb⟩ : a0 = a ∧ b0 = b := by simpa [Option.elim] using h
      subst ha
      subst hb
      refine ⟨rest, rfl, List.mem_of_find?_eq_some hfind, Or.inl ?_⟩
      rw [calculate_parallel_similarity_lt_iff _ _ _ (by norm_num)]
      simpa using List.find?_some hfind
    | none =>
      rw [hfind] at h
      cases rest with
      | nil => simp [Option.elim] at h
      | cons b0 rest2 =>
        obtain ⟨ha, hb⟩ : a0 = a ∧ b0 = b := by simpa [Option.elim] using h
        subst ha
        subst hb
        refine ⟨_, rfl, by simp, Or.inr ⟨?_, by simp⟩⟩
        intro p hp
        rw [calculate_parallel_similarity_lt_iff _ _ _ (by norm_num)]
        simpa using List.find?_eq_none.1 hfind p hp

set_option maxHeartbeats 4000000 in
/-- C8: corner reordering on the corners (0,0), (100,0), (100,100), (0,100)
of the axis-aligned square, supplied in any of the 24 input orders, returns
exactly [top_left (0,0), top_right (100,0), bottom_right (100,100),
bottom_left (0,100)], classifying each point by its quadrant relative to
the centroid (50,50). -/
theorem reformat_corners_square_perm (l : List Point)
    (h : l.Perm [(((0 : ℚ), (0 : ℚ)) : Point), (100, 0), (100, 100), (0, 100)]) :
    reformat_corners l = some [(0, 0), (100, 0), (100, 100), (0, 100)] := by
  have hnd : l.Nodup := h.nodup_iff.mpr (by norm_num [List.nodup_cons, Prod.ext_iff])
  have hlen : l.length = 4 := by simpa using h.length_eq
  obtain ⟨a, b, c, d, rfl⟩ : ∃ a b c d, l = [a, b, c, d] := by
    rcases l with _ | ⟨a, _ | ⟨b, _ | ⟨c, _ | ⟨d, _ | ⟨e, tl⟩⟩⟩⟩⟩ <;> simp at hlen
    exact ⟨_, _, _, _, rfl⟩
  have ha : a ∈ [(((0 : ℚ), (0 : ℚ)) : Point), (100, 0), (100, 100), (0, 100)] :=
    h.subset (by simp)
  have hb : b ∈ [(((0 : ℚ), (0 : ℚ)) : Point), (100, 0), (100, 100), (0, 100)] :=
    h.subset (by simp)
  have hc : c ∈ [(((0 : ℚ), (0 : ℚ)) : Point), (100, 0), (100, 100), (0, 100)] :=
    h.subset (by simp)
  have hd : d ∈ [(((0 : ℚ), (0 : ℚ)) : Point), (100, 0), (100, 100), (0, 100)] :=
    h.subset (by simp)
  simp only [List.nodup_cons, List.mem_cons, List.not_mem_nil, or_false,
    List.nodup_nil, and_true, not_or] at hnd
  fin_cases ha <;> fin_cases hb <;> fin_cases hc <;> fin_cases hd <;>
    norm_num [reformat_corners, assignCorner, Option.elim, List.foldl, Prod.mk.injEq] at hnd ⊢

/-- Witness for C8: the identity ordering of the square's corners. -/
theorem reformat_corners_square_perm_witness :
    reformat_corners [(((0 : ℚ), (0 : ℚ)) : Point), (100, 0), (100, 100), (0, 100)]
      = some [(0, 0), (100, 0), (100, 100), (0, 100)] :=
  reformat_corners_square_perm _ (List.Perm.refl _)

/-- Count of filled slots in a corner-slot record. -/
def filledCount (s : CornerSlots) : ℕ :=
  (if s.tl.isSome then 1 else 0) + (if s.tr.isSome then 1 else 0) +
    (if s.br.isSome then 1 else 0) + (if s.bl.isSome then 1 else 0)

/-- A point lying on either centroid axis satisfies none of the four strict
quadrant tests, so the assignment step leaves the slots unchanged. -/
theorem assignCorner_tie (xc yc : ℚ) (s : CornerSlots) (p : Point)
    (hp : p.1 = xc ∨ p.2 = yc) : assignCorner xc yc s p = s := by
  rcases hp with h | h <;> unfold assignCorner <;> rw [h] <;> simp

/-- Each assignment step fills at most one new slot. -/
theorem filledCount_assign_le (xc yc : ℚ) (s : CornerSlots) (p : Point) :
    filledCount (assignCorner xc yc s p) ≤ filledCount s + 1 := by
  obtain ⟨tl, tr, br, bl⟩ := s
  unfold assignCorner
  split_ifs <;> cases tl <;> cases tr <;> cases br <;> cases bl <;>
      simp [filledCount]

/-- After folding the assignment over a list of points, the number of filled
slots is bounded by the initial count plus the number of points lying
strictly off both centroid axes. -/
theorem foldl_assign_filled_le (xc yc : ℚ) :
    ∀ (ps : List Point) (s : CornerSlots),
      filledCount (ps.foldl (assignCorner xc yc) s)
        ≤ filledCount s + ps.countP fun p => decide (p.1 ≠ xc ∧ p.2 ≠ yc) := by
  intro ps
  induction ps with
  | nil => intro s; simp
  | cons p rest ih =>
    intro s
    rw [List.foldl_cons, List.countP_cons]
    by_cases hp : p.1 = xc ∨ p.2 = yc
    · rw [assignCorner_tie xc yc s p hp]
      have hpred : (decide (p.1 ≠ xc ∧ p.2 ≠ yc)) = false := by
        rcases hp with h | h <;> simp [h]
      rw [hpred]
      simpa using ih s
    · have h1 := ih (assignCorner xc yc s p)
      have h2 := filledCount_assign_le xc yc s p
      have hpred : (decide (p.1 ≠ xc ∧ p.2 ≠ yc)) = true := by
        push_neg at hp
        simp [hp.1, hp.2]
      rw [hpred]
      simp only [if_pos]
      omega

/-- C10 (implicit): corner reordering uses strict inequalities against the
centroid, so a point whose x-coordinate equals the centroid's x or whose
y-coordinate equals the centroid's y is assigned to no quadrant (the
assignment step is the identity on it), and for a 4-point input containing
such a point `reformat_corners` returns `none` even though four points were
supplied. -/
theorem reformat_corners_centroid_tie :
    (∀ (xc yc : ℚ) (s : CornerSlots) (p : Point),
        p.1 = xc ∨ p.2 = yc → assignCorner xc yc s p = s) ∧
    (∀ corners : List Point, corners.length = 4 →
      (∃ p ∈ corners,
          p.1 = (corners.map Prod.fst).sum / 4 ∨
          p.2 = (corners.map Prod.snd).sum / 4) →
      reformat_corners corners = none) := by
  refine ⟨assignCorner_tie, ?_⟩
  rintro corners h4 ⟨p0, hp0mem, hp0⟩
  simp only [reformat_corners]
  rw [if_neg (by omega), List.take_of_length_le (by omega)]
  have hcount :
      (corners.countP fun p =>
        decide (p.1 ≠ (corners.map Prod.fst).sum / 4 ∧
                p.2 ≠ (corners.map Prod.snd).sum / 4)) ≤ 3 := by
    have hlen := List.length_eq_countP_add_countP
      (fun p : Point =>
        decide (p.1 ≠ (corners.map Prod.fst).sum / 4 ∧
                p.2 ≠ (corners.map Prod.snd).sum / 4)) corners
    have hone : 0 < corners.countP fun p =>
        decide ¬(decide (p.1 ≠ (corners.map Prod.fst).sum / 4 ∧
                  p.2 ≠ (corners.map Prod.snd).sum / 4) = true) := by
      rw [List.countP_pos_iff]
      refine ⟨p0, hp0mem, ?_⟩
      rcases hp0 with h | h <;> simp [h]
    omega
  have hbound := foldl_assign_filled_le
    ((corners.map Prod.fst).sum / 4) ((corners.map Prod.snd).sum / 4)
    corners ⟨none, none, none, none⟩
  have hinit : filledCount ⟨none, none, none, none⟩ = 0 := rfl
  rw [hinit] at hbound
  have hfc : filledCount
      (corners.foldl
        (assignCorner ((corners.map Prod.fst).sum / 4)
          ((corners.map Prod.snd).sum / 4))
        ⟨none, none, none, none⟩) ≤ 3 := by omega
  generalize hs : corners.foldl
      (assignCorner ((corners.map Prod.fst).sum / 4)
        ((corners.map Prod.snd).sum / 4))
      ⟨none, none, none, none⟩ = s at hfc ⊢
  obtain ⟨tl, tr, br, bl⟩ := s
  cases tl <;> cases tr <;> cases br <;> cases bl <;>
    simp_all [filledCount, Option.elim]

/-- Witness for C10: the diamond (50,0), (100,50), (50,100), (0,50) has
centroid (50,50); every corner ties with a centroid axis, and reformatting
fails. -/
theorem reformat_corners_centroid_tie_witness :
    assignCorner 50 50 ⟨none, none, none, none⟩ ((50 : ℚ), (0 : ℚ))
        = ⟨none, none, none, none⟩ ∧
    reformat_corners [(((50 : ℚ), (0 : ℚ)) : Point), (100, 50), (50, 100), (0, 50)]
        = none :=
  ⟨reformat_corners_centroid_tie.1 50 50 _ _ (Or.inl rfl),
   reformat_corners_centroid_tie.2 _ (by norm_num)
     ⟨((50 : ℚ), (0 : ℚ)), by norm_num, Or.inl (by norm_num)⟩⟩

/-- Location and minimality of the argmin worker: it returns either the
incoming best index and value, or the absolute index and value of an element
of the remaining list; its value is a lower bound on the incoming best and
on every remaining element. -/
theorem argminAux_spec :
    ∀ (l : List ℝ) (bi : ℕ) (bv : ℝ) (i : ℕ),
      (argminAux l bi bv i = (bi, bv) ∨
        ∃ k, k < l.length ∧ (argminAux l bi bv i).1 = i + k ∧
          l.get? k = some (argminAux l bi bv i).2) ∧
      (argminAux l bi bv i).2 ≤ bv ∧ ∀ x ∈ l, (argminAux l bi bv i).2 ≤ x := by
  intro l
  induction l with
  | nil =>
    intro bi bv i
    exact ⟨Or.inl rfl, le_refl _, by intro x hx; simp at hx⟩
  | cons a rest ih =>
    intro bi bv i
    by_cases hab : a < bv
    · have heq : argminAux (a :: rest) bi bv i = argminAux rest i a (i + 1) := by
        simp only [argminAux]
        rw [if_pos hab]
      obtain ⟨hloc, hle, hall⟩ := ih i a (i + 1)
      rw [heq]
      refine ⟨?_, le_trans hle (le_of_lt hab), ?_⟩
      · rcases hloc with heq2 | ⟨k, hk, hidx, hget⟩
        · right
          refine ⟨0, by simp, ?_, ?_⟩
          · rw [heq2]
            simp
          · rw [heq2]
            simp
        · right
          refine ⟨k + 1, by simpa using Nat.succ_lt_succ hk, by omega, by simpa using hget⟩
      · intro x hx
        rcases List.mem_cons.1 hx with rfl | hx
        · exact hle
        · exact hall x hx
    · have heq : argminAux (a :: rest) bi bv i = argminAux rest bi bv (i + 1) := by
        simp only [argminAux]
        rw [if_neg hab]
      obtain ⟨hloc, hle, hall⟩ := ih bi bv (i + 1)
      rw [heq]
      refine ⟨?_, hle, ?_⟩
      · rcases hloc with heq2 | ⟨k, hk, hidx, hget⟩
        · exact Or.inl heq2
        · right
          refine ⟨k + 1, by simpa using Nat.succ_lt_succ hk, by omega, by simpa using hget⟩
      · intro x hx
        rcases List.mem_cons.1 hx with rfl | hx
        · exact le_trans hle (le_of_not_lt hab)
        · exact hall x hx

/-- On a nonempty candidate list, the `argmin`-indexed selection of
`find_best_corners` returns the corner set of a member whose ratio distance
is a lower bound for all members. -/
theorem pickBest_spec (cands : List (List Point × ℝ)) (hne : cands ≠ []) :
    ∃ q d, (cands.get? (argminIdx (cands.map Prod.snd))).map Prod.fst = some q ∧
      (q, d) ∈ cands ∧ ∀ e ∈ cands, d ≤ e.2 := by
  cases cands with
  | nil => simp at hne
  | cons c rest =>
    obtain ⟨hloc, hle, hall⟩ := argminAux_spec (rest.map Prod.snd) 0 c.2 1
    have hidx : argminIdx ((c :: rest).map Prod.snd)
        = (argminAux (rest.map Prod.snd) 0 c.2 1).1 := by
      simp [argminIdx]
    rcases hloc with heq | ⟨k, hk, hi, hget⟩
    · refine ⟨c.1, c.2, ?_, by simp, ?_⟩
      · rw [hidx, heq]
        simp
      · intro e he
        rcases List.mem_cons.1 he with rfl | he
        · exact le_refl _
        · have := hall e.2 (List.mem_map_of_mem Prod.snd he)
          rw [heq] at this
          exact this
    · have hex : ∃ e, rest.get? k = some e
          ∧ e.2 = (argminAux (rest.map Prod.snd) 0 c.2 1).2 := by
        rw [List.get?_map] at hget
        cases hre : rest.get? k with
        | none => rw [hre] at hget; simp at hget
        | some e =>
          rw [hre] at hget
          refine ⟨e, rfl, ?_⟩
          simpa using hget
      obtain ⟨e, hre, hesnd⟩ := hex
      refine ⟨e.1, e.2, ?_, List.mem_cons_of_mem _ (List.get?_mem hre), ?_⟩
      · rw [hidx, hi, Nat.add_comm 1 k]
        simpa [List.get?_cons_succ] using congrArg (Option.map Prod.fst) hre
      · intro f hf
        rcases List.mem_cons.1 hf with rfl | hf
        · rw [hesnd]
          exact hle
        · rw [hesnd]
          exact hall _ (List.mem_map_of_mem Prod.snd hf)

/-- Membership in the candidate list of the exhaustive search corresponds
exactly to an index pair i < j into the pair list whose combination
evaluates to the candidate. -/
theorem bestCornerCandidates_mem :
    ∀ (pairs : List LinePair) (e : List Point × ℝ),
      e ∈ bestCornerCandidates pairs ↔
        ∃ i j fp sp, i < j ∧ pairs.get? i = some fp ∧ pairs.get? j = some sp ∧
          evalCombo fp sp = some e := by
  intro pairs
  induction pairs with
  | nil =>
    intro e
    simp only [bestCornerCandidates, List.not_mem_nil, false_iff]
    rintro ⟨i, j, fp, sp, hij, hi, hj, hev⟩
    simp at hi
  | cons p rest ih =>
    intro e
    rw [bestCornerCandidates, List.mem_append, List.mem_filterMap]
    constructor
    · rintro (⟨sp, hsp, hev⟩ | hmem)
      · obtain ⟨jr, hjr⟩ := List.get?_of_mem hsp
        exact ⟨0, jr + 1, p, sp, Nat.succ_pos _, rfl, by simpa using hjr, hev⟩
      · obtain ⟨i, j, fp, sp, hij, hi, hj, hev⟩ := (ih e).1 hmem
        exact ⟨i + 1, j + 1, fp, sp, Nat.succ_lt_succ hij, by simpa using hi,
          by simpa using hj, hev⟩
    · rintro ⟨i, j, fp, sp, hij, hi, hj, hev⟩
      cases i with
      | zero =>
        have hfp : p = fp := by simpa using hi
        subst hfp
        cases j with
        | zero => omega
        | succ jr =>
          left
          exact ⟨sp, List.get?_mem (by simpa using hj), hev⟩
      | succ ir =>
        cases j with
        | zero => omega
        | succ jr =>
          right
          exact (ih e).2 ⟨ir, jr, fp, sp, by omega, by simpa using hi,
            by simpa using hj, hev⟩

/-- C1: the exhaustive best-fit corner search returns `none` exactly when no
combination of two pair indices i < j survives the skip checks and yields a
valid reordered corner set, and whenever it returns a corner set, that set
comes from some surviving combination whose width/height ratio distance
from 1 is minimal among all surviving combinations. -/
theorem find_best_corners_spec (pairs : List LinePair) :
    (find_best_corners pairs = none ↔
      ∀ i j fp sp, i < j → pairs.get? i = some fp → pairs.get? j = some sp →
        evalCombo fp sp = none) ∧
    ∀ q, find_best_corners pairs = some q →
      ∃ i j fp sp d, i < j ∧ pairs.get? i = some fp ∧ pairs.get? j = some sp ∧
        evalCombo fp sp = some (q, d) ∧
        ∀ i2 j2 fp2 sp2 q2 d2, i2 < j2 → pairs.get? i2 = some fp2 →
          pairs.get? j2 = some sp2 → evalCombo fp2 sp2 = some (q2, d2) → d ≤ d2 := by
  have hnone : find_best_corners pairs = none ↔ bestCornerCandidates pairs = [] := by
    simp only [find_best_corners]
    by_cases hc : bestCornerCandidates pairs = []
    · simp [hc]
    · rw [if_neg hc]
      obtain ⟨q, d, hget, hmem, hmin⟩ := pickBest_spec _ hc
      rw [hget]
      simp [hc]
  constructor
  · rw [hnone, List.eq_nil_iff_forall_not_mem]
    constructor
    · intro hno i j fp sp hij hi hj
      by_contra hev
      obtain ⟨e, he⟩ := Option.ne_none_iff_exists'.1 hev
      exact hno e ((bestCornerCandidates_mem pairs e).2 ⟨i, j, fp, sp, hij, hi, hj, he⟩)
    · intro hall e hmem
      obtain ⟨i, j, fp, sp, hij, hi, hj, hev⟩ := (bestCornerCandidates_mem pairs e).1 hmem
      rw [hall i j fp sp hij hi hj] at hev
      simp at hev
  · intro q hq
    have hne : bestCornerCandidates pairs ≠ [] := by
      intro hc
      rw [hnone.2 hc] at hq
      cases hq
    obtain ⟨q0, d, hget, hmem, hmin⟩ := pickBest_spec _ hne
    have hfq : find_best_corners pairs = some q0 := by
      simp only [find_best_corners]
      rw [if_neg hne]
      exact hget
    have hq0 : q0 = q := by
      rw [hfq] at hq
      simpa using hq
    subst hq0
    obtain ⟨i, j, fp, sp, hij, hi, hj, hev⟩ :=
      (bestCornerCandidates_mem pairs (q0, d)).1 hmem
    refine ⟨i, j, fp, sp, d, hij, hi, hj, hev, ?_⟩
    intro i2 j2 fp2 sp2 q2 d2 hij2 hi2 hj2 hev2
    exact hmin (q2, d2)
      ((bestCornerCandidates_mem pairs (q2, d2)).2 ⟨i2, j2, fp2, sp2, hij2, hi2, hj2, hev2⟩)

set_option maxHeartbeats 2000000 in
/-- Witness for C1: on the two pairs of opposite sides of the axis-aligned
square, the search returns the square's reordered corners, coming from the
only surviving combination, whose ratio distance is trivially minimal. -/
theorem find_best_corners_spec_witness :
    ∃ i j fp sp d, i < j ∧
      ([((⟨0, 0, 100, 0⟩ : Line), (⟨0, 100, 100, 100⟩ : Line)),
        ((⟨0, 0, 0, 100⟩ : Line), (⟨100, 0, 100, 100⟩ : Line))] : List LinePair).get? i
          = some fp ∧
      ([((⟨0, 0, 100, 0⟩ : Line), (⟨0, 100, 100, 100⟩ : Line)),
        ((⟨0, 0, 0, 100⟩ : Line), (⟨100, 0, 100, 100⟩ : Line))] : List LinePair).get? j
          = some sp ∧
      evalCombo fp sp = some ([(0, 0), (100, 0), (100, 100), (0, 100)], d) ∧
      ∀ i2 j2 fp2 sp2 q2 d2, i2 < j2 →
        ([((⟨0, 0, 100, 0⟩ : Line), (⟨0, 100, 100, 100⟩ : Line)),
          ((⟨0, 0, 0, 100⟩ : Line), (⟨100, 0, 100, 100⟩ : Line))] : List LinePair).get? i2
            = some fp2 →
        ([((⟨0, 0, 100, 0⟩ : Line), (⟨0, 100, 100, 100⟩ : Line)),
          ((⟨0, 0, 0, 100⟩ : Line), (⟨100, 0, 100, 100⟩ : Line))] : List LinePair).get? j2
            = some sp2 →
        evalCombo fp2 sp2 = some (q2, d2) → d ≤ d2 :=
  (find_best_corners_spec _).2 _
    (by norm_num [find_best_corners, bestCornerCandidates, evalCombo,
      find_corners_from_lines, find_lines_intersection, reformat_corners, assignCorner,
      pairEq, simGtB, simSq, sqLength, rawDot, ratTrunc, argminIdx, argminAux,
      Option.elim, List.filterMap, List.flatMap, List.foldl, Line.mk.injEq,
      Prod.mk.injEq, List.cons_ne_nil])

/-- C5: whenever `detect_corners` returns a corner set, every corner lies
within the image's pixel bounds [0,width] x [0,height]; and whenever the
pipeline's best-corner stage produces a set containing an out-of-bounds
corner, `detect_corners` returns `none` instead of that set. -/
theorem detect_corners_bounds :
    (∀ (hough : Option (List (List ℚ))) (height width : ℚ) (quad : List Point),
        detect_corners hough height width = some quad →
        ∀ c ∈ quad, 0 ≤ c.1 ∧ c.1 ≤ width ∧ 0 ≤ c.2 ∧ c.2 ≤ height) ∧
    (∀ (hough : Option (List (List ℚ))) (height width : ℚ) (quad : List Point),
        find_best_corners
            (find_most_parallel_pairs
              (filter_unique_lines (detect_lines hough)
                (if height < width then height * (2 / 5) else width * (2 / 5)))
              (if height < width then height * (2 / 5) else width * (2 / 5)))
          = some quad →
        (∃ c ∈ quad, ¬(0 ≤ c.1 ∧ c.1 ≤ width ∧ 0 ≤ c.2 ∧ c.2 ≤ height)) →
        detect_corners hough height width = none) := by
  constructor
  · intro hough height width quad h
    simp only [detect_corners] at h
    set t := if height < width then height * (2 / 5) else width * (2 / 5) with ht
    split_ifs at h with h1 h2
    cases hbest : find_best_corners
        (find_most_parallel_pairs (filter_unique_lines (detect_lines hough) t) t) with
    | none => rw [hbest] at h; cases h
    | some quad0 =>
      rw [hbest] at h
      simp only [Option.elim] at h
      split_ifs at h with h3 h4
      have hq : quad0 = quad := by simpa using h
      subst hq
      intro c hc
      have := List.all_eq_true.1 h4 c hc
      exact of_decide_eq_true this
  · intro hough height width quad hbest hex
    obtain ⟨c, hc, hcout⟩ := hex
    simp only [detect_corners]
    set t := if height < width then height * (2 / 5) else width * (2 / 5) with ht
    split_ifs with h1 h2
    · rfl
    · rfl
    · rw [hbest]
      simp only [Option.elim]
      split_ifs with h3 h4
      · rfl
      · exfalso
        have := List.all_eq_true.1 h4 c hc
        exact hcout (of_decide_eq_true this)
      · rfl

set_option maxHeartbeats 2000000 in
/-- Witness for C5: the full embedded pipeline on the Hough lines of an
axis-aligned 100-pixel square in a 200 x 200 image succeeds, and every
returned corner is within bounds. -/
theorem detect_corners_bounds_witness :
    detect_corners
        (some [[0, 0, 100, 0], [0, 100, 100, 100], [0, 0, 0, 100], [100, 0, 100, 100]])
        200 200
      = some [(0, 0), (100, 0), (100, 100), (0, 100)] ∧
    ∀ c ∈ ([(((0 : ℚ), (0 : ℚ)) : Point), (100, 0), (100, 100), (0, 100)] : List Point),
      0 ≤ c.1 ∧ c.1 ≤ 200 ∧ 0 ≤ c.2 ∧ c.2 ≤ 200 := by
  have h : detect_corners
      (some [[0, 0, 100, 0], [0, 100, 100, 100], [0, 0, 0, 100], [100, 0, 100, 100]])
      200 200
      = some [(0, 0), (100, 0), (100, 100), (0, 100)] := by
    have hlines : detect_lines
        (some [[0, 0, 100, 0], [0, 100, 100, 100], [0, 0, 0, 100], [100, 0, 100, 100]])
        = [⟨0, 0, 100, 0⟩, ⟨0, 100, 100, 100⟩, ⟨0, 0, 0, 100⟩, ⟨100, 0, 100, 100⟩] := by
      norm_num [detect_lines, List.filterMap]
    have huniq : filter_unique_lines
        [⟨0, 0, 100, 0⟩, ⟨0, 100, 100, 100⟩, ⟨0, 0, 0, 100⟩, ⟨100, 0, 100, 100⟩] 80
        = [⟨0, 0, 100, 0⟩, ⟨0, 100, 100, 100⟩, ⟨0, 0, 0, 100⟩, ⟨100, 0, 100, 100⟩] := by
      norm_num [filter_unique_lines, filterStep, findDup, lengthGtB, lines_proximity,
        simGtB, simSq, sqLength, rawDot, List.find?, List.foldl, Option.elim,
        List.cons_ne_nil, beq_iff_eq, Line.mk.injEq]
    have hpairs : find_most_parallel_pairs
        [⟨0, 0, 100, 0⟩, ⟨0, 100, 100, 100⟩, ⟨0, 0, 0, 100⟩, ⟨100, 0, 100, 100⟩] 80
        = [((⟨0, 0, 0, 100⟩ : Line), (⟨100, 0, 100, 100⟩ : Line)),
           ((⟨0, 0, 100, 0⟩ : Line), (⟨0, 100, 100, 100⟩ : Line))] := by
      norm_num [find_most_parallel_pairs, collectPairs, bestPartnerFold, sortPairsDesc,
        selectBestPairs, pairEq, lines_proximity, simLtB, simSq, sqLength, rawDot,
        List.insertionSort, List.orderedInsert, List.find?, List.foldl, List.any,
        Option.elim, List.head?, Line.mk.injEq, Prod.mk.injEq, List.cons_ne_nil]
    have hbest : find_best_corners
        [((⟨0, 0, 0, 100⟩ : Line), (⟨100, 0, 100, 100⟩ : Line)),
         ((⟨0, 0, 100, 0⟩ : Line), (⟨0, 100, 100, 100⟩ : Line))]
        = some [(0, 0), (100, 0), (100, 100), (0, 100)] := by
      norm_num [find_best_corners, bestCornerCandidates, evalCombo,
        find_corners_from_lines, find_lines_intersection, reformat_corners, assignCorner,
        pairEq, simGtB, simSq, sqLength, rawDot, ratTrunc, argminIdx, argminAux,
        Option.elim, List.filterMap, List.flatMap, List.foldl, Line.mk.injEq,
        Prod.mk.injEq, List.cons_ne_nil]
    simp only [detect_corners]
    rw [hlines]
    norm_num [huniq, hpairs, hbest, Option.elim, List.all_cons, List.cons_ne_nil]
  refine ⟨h, ?_⟩
  exact (detect_corners_bounds.1 _ 200 200 _ h)

/-- Witness for C2 (amended): a horizontal-primary pair followed by a
vertical-primary pair is selected without the fallback, and the similarity
bound holds. -/
theorem selectBestPairs_spec_witness :
    ∃ tail,
      ([((⟨0, 0, 100, 0⟩ : Line), (⟨0, 1000, 100, 1000⟩ : Line)),
        ((⟨0, 0, 0, 100⟩ : Line), (⟨1000, 0, 1000, 100⟩ : Line))] : List LinePair)
        = ((⟨0, 0, 100, 0⟩ : Line), (⟨0, 1000, 100, 1000⟩ : Line)) :: tail ∧
      (((⟨0, 0, 0, 100⟩ : Line), (⟨1000, 0, 1000, 100⟩ : Line)) : LinePair) ∈ tail ∧
      (calculate_parallel_similarity (⟨0, 0, 100, 0⟩ : Line) (⟨0, 0, 0, 100⟩ : Line)
          < ((9 / 10 : ℚ) : ℝ) ∨
        ((∀ p ∈ tail,
            ¬ calculate_parallel_similarity (⟨0, 0, 100, 0⟩ : Line) p.1
              < ((9 / 10 : ℚ) : ℝ)) ∧
          tail.head? = some ((⟨0, 0, 0, 100⟩ : Line), (⟨1000, 0, 1000, 100⟩ : Line)))) :=
  selectBestPairs_spec _ _ _
    (by norm_num [selectBestPairs, List.find?, simLtB, simSq, sqLength, rawDot])

end AlbumWiz
